import Mathlib

/-!
Shallow embedding of the `lua_parser` crate's lexer and syntax-tree wrapper
layer, together with theorems checking the specification's claims against it.

Source text is modelled as `List Char`; all lengths count characters.  The
Rust `Cursor` (peek-nth, bump, bump-while, matches, consumed length) is
threaded explicitly: every scanner takes the remaining input and returns the
number of characters it consumes.  Loops that the Rust code runs on a cursor
are translated to recursion on the remaining input; the two loops whose
progress the Rust code does not guarantee per iteration
(`scan_long_string`, whose body can fail to advance at end of input, and the
block-comment loop, which advances a variable number of characters) are given
an explicit fuel parameter, instantiated with `length + 1`, which is enough
fuel whenever the Rust loop terminates.  `Option` results mark divergence of
the corresponding Rust loop: `none` means the loop never exits.
-/

namespace LuaParser

/-- Modelled from the spec: the generated `SyntaxKind` enumeration
(`syntax_kind/generated.rs` is produced by external code generation and is not
part of the studied sources).  The spec describes it as a closed enumeration
of lexical and syntactic categories; the kinds below are the ones the lexer
and the tree layer use. -/
inductive SyntaxKind where
  | WHITESPACE | COMMENT | STRING | NUMBER | IDENT | ERROR
  | NEQ
  | PLUS | MINUS | STAR | SLASH | PERCENT | CARET | HASH
  | EQ | LT | GT
  | L_PAREN | R_PAREN | L_CURLY | R_CURLY | L_BRACKET | R_BRACKET
  | SEMI | COLON | COMMA | DOT
  | AND_KW | BREAK_KW | DO_KW | ELSE_KW | ELSEIF_KW | END_KW | FALSE_KW
  | FOR_KW | FUNCTION_KW | IF_KW | IN_KW | LOCAL_KW | NIL_KW | NOT_KW
  | OR_KW | REPEAT_KW | RETURN_KW | THEN_KW | TRUE_KW | UNTIL_KW | WHILE_KW
  | CHUNK
deriving DecidableEq, Repr

open SyntaxKind

/-- Token from `lexer.rs`: a kind plus a length (the Rust `TextUnit` length is
modelled as the number of characters covered). -/
structure Token where
  kind : SyntaxKind
  len : Nat
deriving DecidableEq, Repr

/-- Modelled from the spec: `classes.rs` is not in the sources; the spec only
says a whitespace run becomes one WHITESPACE token. -/
def is_whitespace (c : Char) : Bool :=
  c = ' ' ∨ c = '\t' ∨ c = '\n' ∨ c = '\r'

/-- Modelled from the spec: identifier-start characters (`classes.rs` is not
in the sources). -/
def is_ident_start (c : Char) : Bool :=
  c.isAlpha ∨ c = '_'

/-- Modelled from the spec: identifier-continue characters (`classes.rs` is
not in the sources); the spec asks for a maximal identifier run. -/
def is_ident_continue (c : Char) : Bool :=
  c.isAlphanum ∨ c = '_'

/-- Modelled from the spec: decimal digits (`classes.rs` is not in the
sources). -/
def is_dec_digit (c : Char) : Bool :=
  c.isDigit

/-- Modelled from the spec: `SyntaxKind::from_char`, the fixed single-character
punctuation and operator table (the generated table is not in the sources).
Per the spec, bare tilde has no mapping and quotes are handled separately. -/
def from_char (c : Char) : Option SyntaxKind :=
  if c = '+' then some PLUS
  else if c = '-' then some MINUS
  else if c = '*' then some STAR
  else if c = '/' then some SLASH
  else if c = '%' then some PERCENT
  else if c = '^' then some CARET
  else if c = '#' then some HASH
  else if c = '=' then some EQ
  else if c = '<' then some LT
  else if c = '>' then some GT
  else if c = '(' then some L_PAREN
  else if c = ')' then some R_PAREN
  else if c = '{' then some L_CURLY
  else if c = '}' then some R_CURLY
  else if c = '[' then some L_BRACKET
  else if c = ']' then some R_BRACKET
  else if c = ';' then some SEMI
  else if c = ':' then some COLON
  else if c = ',' then some COMMA
  else if c = '.' then some DOT
  else none

/-- Modelled from the spec: `SyntaxKind::from_keyword`, the case-sensitive
keyword table (the generated table is not in the sources). -/
def from_keyword (s : List Char) : Option SyntaxKind :=
  if s = "and".toList then some AND_KW
  else if s = "break".toList then some BREAK_KW
  else if s = "do".toList then some DO_KW
  else if s = "else".toList then some ELSE_KW
  else if s = "elseif".toList then some ELSEIF_KW
  else if s = "end".toList then some END_KW
  else if s = "false".toList then some FALSE_KW
  else if s = "for".toList then some FOR_KW
  else if s = "function".toList then some FUNCTION_KW
  else if s = "if".toList then some IF_KW
  else if s = "in".toList then some IN_KW
  else if s = "local".toList then some LOCAL_KW
  else if s = "nil".toList then some NIL_KW
  else if s = "not".toList then some NOT_KW
  else if s = "or".toList then some OR_KW
  else if s = "repeat".toList then some REPEAT_KW
  else if s = "return".toList then some RETURN_KW
  else if s = "then".toList then some THEN_KW
  else if s = "true".toList then some TRUE_KW
  else if s = "until".toList then some UNTIL_KW
  else if s = "while".toList then some WHILE_KW
  else none

/-- The `while cursor.nth(level + offset) == Some('=') { level += 1 }` loop of
`match_long_bracket_tail` in `brackets.rs`: length of the leading run of
equal signs. -/
def count_eq_signs : List Char → Nat
  | '=' :: t => count_eq_signs t + 1
  | _ => 0

/-- Direct translation of `match_long_bracket_tail` (`brackets.rs`): pure
lookahead that counts consecutive equal signs starting `offset` characters
into the remaining input and then requires the bracket character `c` right
after them; returns the count (the level) on success. -/
def match_long_bracket_tail (c : Char) (offset : Nat) (rest : List Char) : Option Nat :=
  if (rest.drop offset)[count_eq_signs (rest.drop offset)]? = some c then
    some (count_eq_signs (rest.drop offset))
  else none

/-- Direct translation of `scan_long_bracket` (`brackets.rs`): requires the
bracket character `c` at the cursor, then a level-`L` tail; on success the
Rust code consumes `L + 2` characters (`bump_n(level + 2)`), so callers drop
`level + 2` characters of the remaining input on `some level`. -/
def scan_long_bracket (c : Char) (rest : List Char) : Option Nat :=
  if rest.head? = some c then match_long_bracket_tail c 1 rest else none

/-- Direct translation of `scan_string` (`strings.rs`), returning the number
of characters consumed after the opening quote.  The backslash arm comes
first, exactly as in the source: a backslash is consumed, and the following
character is consumed with it only when it is another backslash or the quote
character. -/
def scan_string (quote_type : Char) : List Char → Nat
  | [] => 0
  | [_] => 1
  | c :: c2 :: t2 =>
    if c = '\\' then
      if c2 = '\\' ∨ c2 = quote_type then 2 + scan_string quote_type t2
      else 1 + scan_string quote_type (c2 :: t2)
    else if c = quote_type then 1
    else 1 + scan_string quote_type (c2 :: t2)

/-- Fuel-indexed translation of the `scan_long_string` loop (`strings.rs`):
`while scan_long_bracket(']', cursor) == None { cursor.bump(); }`.
The `level` argument is carried to mirror the Rust signature, and just as in
the source it is never used.  When the remaining input is exhausted the Rust
loop keeps running (`bump` returns `None` and the loop ignores it), which the
translation reflects by recursing without consuming; `none` therefore means
the Rust loop never exits. -/
def scan_long_string_fuel (level : Nat) : Nat → List Char → Option Nat
  | 0, _ => none
  | fuel + 1, rest =>
    match scan_long_bracket ']' rest with
    | some lv => some (lv + 2)
    | none =>
      match rest with
      | [] => scan_long_string_fuel level fuel []
      | _ :: t => (scan_long_string_fuel level fuel t).map (· + 1)

/-- The `scan_long_string` loop run with enough fuel for any terminating run:
each failed probe on non-empty input consumes one character, so `length + 1`
steps reach either a successful probe or the end of input. -/
def scan_long_string (level : Nat) (rest : List Char) : Option Nat :=
  scan_long_string_fuel level (rest.length + 1) rest

/-- Direct translation of `bump_until_eol` (`comments.rs`): consume up to but
not including a line feed or a carriage-return line-feed pair, or to end of
input. -/
def bump_until_eol : List Char → Nat
  | [] => 0
  | c :: t =>
    if c = '\n' then 0
    else if c = '\r' ∧ t.head? = some '\n' then 0
    else 1 + bump_until_eol t

/-- Fuel-indexed translation of the block-comment loop in `scan_comment`
(`comments.rs`).  Each iteration probes with `scan_long_bracket(']')`, which
on any match consumes the whole matched closer (`lv + 2` characters): a
same-level match breaks the loop; a different-level match falls through to
the `bump`, which consumes one more character or breaks at end of input; a
failed probe consumes nothing and falls through to the same `bump`.  Every
iteration that does not break consumes at least one character, so fuel
`length + 1` always suffices; the fuel-exhausted case is unreachable for that
choice. -/
def scan_comment_loop_fuel (level : Nat) : Nat → List Char → Nat
  | 0, _ => 0
  | fuel + 1, rest =>
    match scan_long_bracket ']' rest with
    | some lv =>
      if lv = level then lv + 2
      else if rest.length ≤ lv + 2 then lv + 2
      else (lv + 3) + scan_comment_loop_fuel level fuel (rest.drop (lv + 3))
    | none =>
      match rest with
      | [] => 0
      | _ :: t => 1 + scan_comment_loop_fuel level fuel t

/-- The block-comment loop with its canonical, always-sufficient fuel. -/
def scan_comment_loop (level : Nat) (rest : List Char) : Nat :=
  scan_comment_loop_fuel level (rest.length + 1) rest

/-- Direct translation of `scan_comment` (`comments.rs`), entered after the
two dashes have been consumed: on a long-bracket opener the opener
(`level + 2` characters) is consumed and the block-comment loop runs on what
follows; otherwise the comment extends to end of line.  The token kind is
always COMMENT.  Returns characters consumed after the two dashes. -/
def scan_comment (rest : List Char) : Nat :=
  match scan_long_bracket '[' rest with
  | some level => (level + 2) + scan_comment_loop level (rest.drop (level + 2))
  | none => bump_until_eol rest

/-- Modelled from the spec: hexadecimal digits for the number scanner
(`numbers.rs` is not in the sources). -/
def is_hex_digit (c : Char) : Bool :=
  c.isDigit ∨ ('a' ≤ c ∧ c ≤ 'f') ∨ ('A' ≤ c ∧ c ≤ 'F')

/-- Modelled from the spec: optional fraction part of a number (a dot
followed by a digit run). -/
def scan_number_frac (l : List Char) : Nat :=
  if l.head? = some '.' then 1 + ((l.drop 1).takeWhile is_dec_digit).length else 0

/-- Modelled from the spec: optional exponent part of a number (an exponent
marker, an optional sign, and a digit run). -/
def scan_number_exp (l : List Char) : Nat :=
  if l.head? = some 'e' ∨ l.head? = some 'E' then
    if (l.drop 1).head? = some '-' then 2 + ((l.drop 2).takeWhile is_dec_digit).length
    else 1 + ((l.drop 1).takeWhile is_dec_digit).length
  else 0

/-- Modelled from the spec: fraction then exponent, after the integer part. -/
def scan_number_tail (afterInt : List Char) : Nat :=
  scan_number_frac afterInt + scan_number_exp (afterInt.drop (scan_number_frac afterInt))

/-- Modelled from the spec: `numbers.rs` is not in the sources; the spec
describes the number scanner only as an opaque sub-scanner for hex, float and
exponent forms with its own progress guarantee.  The first digit has already
been consumed; this consumes the remainder of the number. -/
def scan_number (c : Char) (rest : List Char) : Nat :=
  if c = '0' ∧ (rest.head? = some 'x' ∨ rest.head? = some 'X') then
    1 + ((rest.drop 1).takeWhile is_hex_digit).length
  else
    (rest.takeWhile is_dec_digit).length +
      scan_number_tail (rest.drop (rest.takeWhile is_dec_digit).length)

/-- Direct translation of `scan_identifier_or_keyword` (`lexer.rs`): consume
the maximal identifier-continue run after the first character, then look the
whole consumed text up in the keyword table, defaulting to IDENT. -/
def scan_identifier_or_keyword (c : Char) (rest : List Char) : SyntaxKind × Nat :=
  let n := (rest.takeWhile is_ident_continue).length
  match from_keyword (c :: rest.take n) with
  | some kind => (kind, n)
  | none => (IDENT, n)

/-- The tail of `next_token_inner` (`lexer.rs`) after the whitespace, comment
and long-string branches: identifier, number, single-character table, the
two-character `~=` merge, short strings, and the ERROR fallback.  Returns the
kind and the characters consumed after `c`. -/
def next_token_rest (c : Char) (rest : List Char) : SyntaxKind × Nat :=
  if is_ident_start c then scan_identifier_or_keyword c rest
  else if is_dec_digit c then (NUMBER, scan_number c rest)
  else
    match from_char c with
    | some kind => (kind, 0)
    | none =>
      if c = '~' ∧ rest.head? = some '=' then (NEQ, 1)
      else if c = '"' ∨ c = '\'' then (STRING, scan_string c rest)
      else (ERROR, 0)

/-- Direct translation of `next_token_inner` (`lexer.rs`): dispatch on the
first (already consumed) character `c` with the rest of the input in `rest`.
Returns the kind and the characters consumed after `c`, or `none` when the
corresponding Rust code never returns (the long-string loop diverging). -/
def next_token_inner (c : Char) (rest : List Char) : Option (SyntaxKind × Nat) :=
  if is_whitespace c then some (WHITESPACE, (rest.takeWhile is_whitespace).length)
  else if c = '-' ∧ rest.head? = some '-' then
    some (COMMENT, 1 + scan_comment (rest.drop 1))
  else if c = '[' then
    match match_long_bracket_tail '[' 0 rest with
    | some level =>
      (scan_long_string level (rest.drop (level + 1))).map (fun n => (STRING, (level + 1) + n))
    | none => some (next_token_rest c rest)
  else some (next_token_rest c rest)

/-- Direct translation of `next_token` (`lexer.rs`): bump the first character
and dispatch; the token length is one plus whatever the dispatch consumed.
The Rust function asserts the input is non-empty; `none` on `[]` stands for
that panic, and `none` on non-empty input stands for divergence. -/
def next_token : List Char → Option Token
  | [] => none
  | c :: rest => (next_token_inner c rest).map (fun p => ⟨p.1, 1 + p.2⟩)

/-- Fuel-indexed translation of the `tokenize` loop (`lexer.rs`): while input
remains, take the next token and drop its length.  A zero-length token would
keep the Rust loop on the same text forever, so it maps to `none`; with the
canonical fuel `length + 1` the fuel can run out only in that impossible
situation, since every token otherwise covers at least one character. -/
def tokenize_fuel : Nat → List Char → Option (List Token)
  | 0, _ => none
  | _, [] => some []
  | fuel + 1, c :: rest =>
    match next_token (c :: rest) with
    | none => none
    | some tok =>
      if tok.len = 0 then none
      else (tokenize_fuel fuel ((c :: rest).drop tok.len)).map (tok :: ·)

/-- Direct translation of `tokenize` (`lexer.rs`) with its canonical fuel;
`none` means the Rust function never returns on this input. -/
def tokenize (text : List Char) : Option (List Token) :=
  tokenize_fuel (text.length + 1) text

/-- Convenience: the character list of a string literal. -/
def toChars (s : String) : List Char := s.toList

/-- Modelled from the spec for claim C5 only: the position, per the claim's
words, where a block comment of level `level` should end — immediately after
the first same-level closing long bracket occurring in the remaining text
(the search scans every position left to right), or `none` when no such
closer occurs before end of input. -/
def isCloserPrefix (level : Nat) (l : List Char) : Bool :=
  l.take (level + 2) = ']' :: (List.replicate level '=' ++ [']'])

/-- Claim-side companion of `isCloserPrefix`: end position (relative to the
text after the opener) of the first same-level closer, per claim C5. -/
def firstCloserEnd (level : Nat) (rest : List Char) : Option Nat :=
  ((List.range (rest.length + 1)).find? (fun i => isCloserPrefix level (rest.drop i))).map
    (fun i => i + (level + 2))

/-- Text range from the external `text_unit` crate re-exported by `lib.rs`;
the Rust accessors are `start()` and `end()` (here `stop`, since `end` is a
Lean keyword).  Offsets (`TextUnit`) are modelled as `Nat`. -/
structure TextRange where
  start : Nat
  stop : Nat
deriving DecidableEq, Repr

/-- Intersection of two ranges as in the `text_unit` crate: the overlap when
the maximal start does not exceed the minimal end (touching ranges yield an
empty range), and `none` otherwise. -/
def TextRange.intersection (a b : TextRange) : Option TextRange :=
  let s := max a.start b.start
  let e := min a.stop b.stop
  if s ≤ e then some ⟨s, e⟩ else none

/-- Inclusive containment of an offset as in the `text_unit` crate
(`contains_inclusive`): both boundaries count as inside. -/
def TextRange.contains_inclusive (r : TextRange) (u : Nat) : Bool :=
  r.start ≤ u ∧ u ≤ r.stop

/-- Claim-side predicate for claim C8: the requested slice lies within the
text's own range. -/
def TextRange.containsRange (own req : TextRange) : Bool :=
  own.start ≤ req.start ∧ req.stop ≤ own.stop

/-- Direct translation of `impl SyntaxTextSlice for TextRange` in
`syntax_text.rs`: restricting an absolute requested range to the text's own
range is plain intersection; `none` is the case where `SyntaxText::slice`
panics. -/
def restrictRange (req : TextRange) (own : TextRange) : Option TextRange :=
  req.intersection own

/-- Direct translation of `impl SyntaxTextSlice for RangeTo<TextUnit>` in
`syntax_text.rs`: an open-ended `..stop` request requires the endpoint to lie
inside the text's own range (inclusively) and keeps the range's start. -/
def restrictRangeTo (stop : Nat) (own : TextRange) : Option TextRange :=
  if own.contains_inclusive stop then some ⟨own.start, stop⟩ else none

/-- Direct translation of `impl SyntaxTextSlice for RangeFrom<TextUnit>` in
`syntax_text.rs`: an open-ended `start..` request requires the start to lie
inside the text's own range (inclusively) and keeps the range's end. -/
def restrictRangeFrom (start : Nat) (own : TextRange) : Option TextRange :=
  if own.contains_inclusive start then some ⟨start, own.stop⟩ else none

/-- Location of a diagnostic, from `syntax_error.rs`: either a single offset
or a full range. -/
inductive Location where
  | offset (o : Nat)
  | range (r : TextRange)
deriving DecidableEq, Repr

/-- Direct translation of `Location::add_offset` (`syntax_error.rs`): shift
the location by `plus_offset` and then back by `minus_offset`, purely
arithmetically; the range variant shifts both endpoints. -/
def Location.add_offset : Location → Nat → Nat → Location
  | .range r, plus_offset, minus_offset =>
    .range ⟨r.start + plus_offset - minus_offset, r.stop + plus_offset - minus_offset⟩
  | .offset o, plus_offset, minus_offset => .offset (o + plus_offset - minus_offset)

/-- Parse error message, from `lib.rs` (`pub struct ParseError(pub String)`). -/
structure ParseError where
  msg : List Char
deriving DecidableEq, Repr

/-- Error kind, from `syntax_error.rs`. -/
inductive SyntaxErrorKind where
  | parseError (e : ParseError)
deriving DecidableEq, Repr

/-- Diagnostic record, from `syntax_error.rs`: a kind plus a location. -/
structure SyntaxError where
  kind : SyntaxErrorKind
  location : Location
deriving DecidableEq, Repr

/-- Green tree element: the immutable, position-free tree provided by the
external `rowan` crate — a token carries its kind and text, a node its kind
and children.  Only what the wrapper layer observes is modelled. -/
inductive GreenElem where
  | token (kind : SyntaxKind) (text : List Char)
  | node (kind : SyntaxKind) (children : List GreenElem)

mutual
/-- Tokens of a green subtree in document order: this is what
`descendants_with_tokens` in `SyntaxText::chunks` (`syntax_text.rs`) yields
once the `filter_map` has discarded the node elements — the pre-order visit
of a tree meets its tokens exactly left to right. -/
def treeTokens : GreenElem → List (List Char)
  | .token _ text => [text]
  | .node _ children => treeTokensList children

/-- Tokens of a forest of green subtrees, in order. -/
def treeTokensList : List GreenElem → List (List Char)
  | [] => []
  | e :: es => treeTokens e ++ treeTokensList es
end

/-- Chunk computation of `SyntaxText::chunks` (`syntax_text.rs`): walk the
node's tokens in document order, tracking each token's absolute range
starting at `off`; every token whose range intersects the queried range
contributes the corresponding slice of its text (the `?` in the Rust code
skips tokens with no intersection). -/
def chunksFrom (range : TextRange) (off : Nat) : List (List Char) → List (List Char)
  | [] => []
  | t :: ts =>
    let restChunks := chunksFrom range (off + t.length) ts
    match range.intersection ⟨off, off + t.length⟩ with
    | some r => ((t.drop (r.start - off)).take (r.stop - r.start)) :: restChunks
    | none => restChunks

/-- View from `syntax_text.rs`: a `SyntaxText` is a node plus a queried range.
The node's absolute start offset (`nodeStart`) stands for the position data
the red layer attaches to the green node; `SyntaxText::new` uses
`range = ⟨nodeStart, nodeStart + total token length⟩`. -/
structure SyntaxText where
  node : GreenElem
  nodeStart : Nat
  range : TextRange

/-- The chunk sequence of a `SyntaxText` (`SyntaxText::chunks`). -/
def SyntaxText.chunks (st : SyntaxText) : List (List Char) :=
  chunksFrom st.range st.nodeStart (treeTokens st.node)

/-- The loop of `SyntaxText::find` (`syntax_text.rs`): scan the chunks in
order keeping a running total `acc` of chunk lengths; on the first chunk
containing `c` return `acc` plus the position inside that chunk. -/
def findInChunks (c : Char) (acc : Nat) : List (List Char) → Option Nat
  | [] => none
  | chunk :: rest =>
    match chunk.findIdx? (fun x => x = c) with
    | some pos => some (acc + pos)
    | none => findInChunks c (acc + chunk.length) rest

/-- Direct translation of `SyntaxText::find` (`syntax_text.rs`): the
accumulator starts at zero. -/
def SyntaxText.find (st : SyntaxText) (c : Char) : Option Nat :=
  findInChunks c 0 st.chunks

/-- Claim-side companion for claim C9, following the claim's words: the
absolute offset, into the whole document's text, of the first occurrence of
`c` in the text — the text's own first-occurrence index shifted by the start
of its range. -/
def findAbsoluteSpec (st : SyntaxText) (c : Char) : Option Nat :=
  (st.chunks.flatten.findIdx? (fun x => x = c)).map (fun i => i + st.range.start)

/-- Direct translation of `SyntaxText::slice` for an absolute-range request
(`syntax_text.rs`): restrict the request to the text's own range, keeping the
node; `none` is the panic. -/
def SyntaxText.sliceRange (st : SyntaxText) (req : TextRange) : Option SyntaxText :=
  (restrictRange req st.range).map (fun r => ⟨st.node, st.nodeStart, r⟩)

/-- Direct translation of `SyntaxText::slice` for a `..stop` request. -/
def SyntaxText.sliceTo (st : SyntaxText) (stop : Nat) : Option SyntaxText :=
  (restrictRangeTo stop st.range).map (fun r => ⟨st.node, st.nodeStart, r⟩)

/-- Direct translation of `SyntaxText::slice` for a `start..` request. -/
def SyntaxText.sliceFrom (st : SyntaxText) (start : Nat) : Option SyntaxText :=
  (restrictRangeFrom start st.range).map (fun r => ⟨st.node, st.nodeStart, r⟩)

/-- Builder from `syntax_node.rs`: the diagnostic side of
`SyntaxTreeBuilder` — a list of accumulated `SyntaxError`s next to the green
builder (the structural events are kept abstract as the list of green
children built so far, which the diagnostics never inspect). -/
structure SyntaxTreeBuilder where
  errors : List SyntaxError
  greenChildren : List GreenElem

/-- Direct translation of `SyntaxTreeBuilder::error` (`syntax_node.rs`):
append a diagnostic at an absolute offset; purely additive bookkeeping. -/
def SyntaxTreeBuilder.error (b : SyntaxTreeBuilder) (e : ParseError) (text_pos : Nat) :
    SyntaxTreeBuilder :=
  { b with errors := b.errors ++ [⟨.parseError e, .offset text_pos⟩] }

/-- Root of a frozen tree: the green root plus the opaque side payload that
`SyntaxNode::new` (`syntax_node.rs`) attaches — `None` when the error list
was empty, `Some` of the list otherwise. -/
structure SyntaxNodeRoot where
  green : List GreenElem
  rootErrors : Option (List SyntaxError)

/-- Direct translation of `SyntaxTreeBuilder::finish` composed with
`SyntaxNode::new` (`syntax_node.rs`): freeze the structure and attach the
accumulated diagnostics as the root's side payload, boxed only when
non-empty. -/
def SyntaxTreeBuilder.finish (b : SyntaxTreeBuilder) : SyntaxNodeRoot :=
  ⟨b.greenChildren, if b.errors = [] then none else some b.errors⟩

/-- Direct translation of `SyntaxNode::root_data` (`syntax_node.rs`): the
attached diagnostics, or the empty list when no payload was attached. -/
def SyntaxNodeRoot.root_data (n : SyntaxNodeRoot) : List SyntaxError :=
  n.rootErrors.getD []

/-- Direct translation of `Chunk::errors` (`lib.rs`): the body is
`Vec::new()` — the code that would read the root's side table is commented
out, so the accessor returns the empty list for every tree. -/
def Chunk.errors (_root : SyntaxNodeRoot) : List SyntaxError :=
  []

/-- Helper describing a builder run for claim C10: record a whole list of
diagnostics through `SyntaxTreeBuilder::error`, in order. -/
def SyntaxTreeBuilder.applyErrors (b : SyntaxTreeBuilder) :
    List (ParseError × Nat) → SyntaxTreeBuilder
  | [] => b
  | (e, pos) :: rest => (b.error e pos).applyErrors rest

/-- The substrings of the input covered by a token list, taken in order with
their recorded lengths, concatenated — claim C1's reading of "the tokens'
covered text". -/
def coveredConcat : List Char → List Token → List Char
  | _, [] => []
  | text, tok :: toks => text.take tok.len ++ coveredConcat (text.drop tok.len) toks

/-- Follows claim C6's words: the short-string scanner consumes characters up
to and including the first matching unescaped quote, or to end of input if
none; a backslash immediately followed by another backslash or by the quote
character is consumed as one two-character unit; any other character after a
backslash is left for the next iteration. -/
def shortStringSpec (q : Char) : List Char → Nat
  | [] => 0
  | [_] => 1
  | c :: c2 :: t2 =>
    if c = q then 1
    else if c = '\\' then
      if c2 = '\\' ∨ c2 = q then 2 + shortStringSpec q t2
      else 1 + shortStringSpec q (c2 :: t2)
    else 1 + shortStringSpec q (c2 :: t2)

/-! ### Helper lemmas -/

theorem takeWhile_len_le (p : Char → Bool) (l : List Char) :
    (l.takeWhile p).length ≤ l.length :=
  (List.takeWhile_sublist p).length_le

/-- A successful long-bracket scan means the whole closer fits in the
remaining input. -/
theorem scan_long_bracket_le {c : Char} {rest : List Char} {lv : Nat}
    (h : scan_long_bracket c rest = some lv) : lv + 2 ≤ rest.length := by
  unfold scan_long_bracket at h
  split at h
  case isTrue hh =>
    unfold match_long_bracket_tail at h
    split at h
    case isTrue hg =>
      cases h
      obtain ⟨hlt, -⟩ := List.getElem?_eq_some_iff.mp hg
      have hne : rest ≠ [] := by
        intro hnil
        rw [hnil] at hh
        cases hh
      cases rest with
      | nil => exact absurd rfl hne
      | cons a t => simp [List.length_drop] at hlt ⊢; omega
    case isFalse => cases h
  case isFalse => cases h

/-- When the remaining input has no closing bracket character at all, the
`scan_long_string` loop never exits, no matter how much fuel it is given:
this is the Rust infinite loop on unterminated long strings. -/
theorem scan_long_string_fuel_no_closer (level : Nat) :
    ∀ (fuel : Nat) (rest : List Char), ']' ∉ rest →
      scan_long_string_fuel level fuel rest = none := by
  intro fuel
  induction fuel with
  | zero => intro rest _; rfl
  | succ n ih =>
    intro rest h
    have hb : scan_long_bracket ']' rest = none := by
      unfold scan_long_bracket
      split
      case isTrue hh =>
        exact absurd (List.mem_of_mem_head? (by rw [hh]; exact rfl)) h
      case isFalse => rfl
    cases rest with
    | nil =>
      simp only [scan_long_string_fuel, hb]
      exact ih [] h
    | cons a t =>
      simp only [scan_long_string_fuel, hb]
      have ht : ']' ∉ t := fun hm => h (List.mem_cons_of_mem _ hm)
      rw [ih t ht]
      rfl

/-- A terminating `scan_long_string` run never consumes more than the
remaining input. -/
theorem scan_long_string_fuel_le (level : Nat) :
    ∀ (fuel : Nat) (rest : List Char) (n : Nat),
      scan_long_string_fuel level fuel rest = some n → n ≤ rest.length := by
  intro fuel
  induction fuel with
  | zero => intro rest n h; cases h
  | succ m ih =>
    intro rest n h
    simp only [scan_long_string_fuel] at h
    split at h
    case _ lv hb =>
      cases h
      exact scan_long_bracket_le hb
    case _ hb =>
      split at h
      · exact ih [] n h
      · rename_i a t
        obtain ⟨k, hk, rfl⟩ := Option.map_eq_some'.mp h
        have := ih t k hk
        simp only [List.length_cons]
        omega

/-- `bump_until_eol` never consumes more than the remaining input. -/
theorem bump_until_eol_le : ∀ rest : List Char, bump_until_eol rest ≤ rest.length := by
  intro rest
  induction rest with
  | nil => simp [bump_until_eol]
  | cons c t ih =>
    rw [bump_until_eol]
    split
    · omega
    · split
      · omega
      · simp only [List.length_cons]
        omega

/-- Fuel-uniform bound for the block-comment loop: with enough fuel it never
consumes more than the remaining input. -/
theorem scan_comment_loop_fuel_le (level : Nat) :
    ∀ (fuel : Nat) (rest : List Char), rest.length < fuel →
      scan_comment_loop_fuel level fuel rest ≤ rest.length := by
  intro fuel
  induction fuel with
  | zero => intro rest h; omega
  | succ m ih =>
    intro rest hfuel
    simp only [scan_comment_loop_fuel]
    split
    case _ lv hb =>
      have hle := scan_long_bracket_le hb
      split
      · omega
      · split
        · omega
        · have h2 := ih (rest.drop (lv + 3)) (by simp only [List.length_drop]; omega)
          simp only [List.length_drop] at h2
          omega
    case _ hb =>
      split
      · simp
      · rename_i a t
        have := ih t (by simp only [List.length_cons] at hfuel; omega)
        simp only [List.length_cons]
        omega

/-- When the remaining input has no closing bracket character, the
block-comment loop absorbs everything to end of input. -/
theorem scan_comment_loop_fuel_no_closer (level : Nat) :
    ∀ (fuel : Nat) (rest : List Char), rest.length < fuel → ']' ∉ rest →
      scan_comment_loop_fuel level fuel rest = rest.length := by
  intro fuel
  induction fuel with
  | zero => intro rest h _; omega
  | succ m ih =>
    intro rest hfuel h
    have hb : scan_long_bracket ']' rest = none := by
      unfold scan_long_bracket
      split
      case isTrue hh =>
        exact absurd (List.mem_of_mem_head? (by rw [hh]; exact rfl)) h
      case isFalse => rfl
    simp only [scan_comment_loop_fuel]
    rw [hb]
    cases rest with
    | nil => rfl
    | cons a t =>
      have ht : ']' ∉ t := fun hm => h (List.mem_cons_of_mem _ hm)
      have := ih t (by simp only [List.length_cons] at hfuel; omega) ht
      simp only [this, List.length_cons]
      omega

/-- Canonical-fuel form of the block-comment loop bound. -/
theorem scan_comment_loop_le (level : Nat) (rest : List Char) :
    scan_comment_loop level rest ≤ rest.length :=
  scan_comment_loop_fuel_le level (rest.length + 1) rest (Nat.lt_succ_self _)

/-- Canonical-fuel form: a block comment with no closing bracket character in
its body absorbs the whole remaining input. -/
theorem scan_comment_loop_no_closer (level : Nat) (rest : List Char) (h : ']' ∉ rest) :
    scan_comment_loop level rest = rest.length :=
  scan_comment_loop_fuel_no_closer level (rest.length + 1) rest (Nat.lt_succ_self _) h

/-- A same-level closer right at the cursor ends the block comment
immediately after itself. -/
theorem scan_comment_loop_immediate {level : Nat} {rest : List Char}
    (hb : scan_long_bracket ']' rest = some level) :
    scan_comment_loop level rest = level + 2 := by
  rw [scan_comment_loop]
  simp only [scan_comment_loop_fuel]
  rw [hb]
  simp

/-- A successful lookahead for a long-bracket tail lies inside the input. -/
theorem match_long_bracket_tail_lt {c : Char} {off lv : Nat} {rest : List Char}
    (h : match_long_bracket_tail c off rest = some lv) : off + lv < rest.length := by
  unfold match_long_bracket_tail at h
  split at h
  case isTrue hg =>
    cases h
    obtain ⟨hlt, -⟩ := List.getElem?_eq_some_iff.mp hg
    simp only [List.length_drop] at hlt
    omega
  case isFalse => cases h

/-- `scan_comment` never consumes more than the remaining input. -/
theorem scan_comment_le (rest : List Char) : scan_comment rest ≤ rest.length := by
  rw [scan_comment]
  split
  case _ level hb =>
    have h1 := scan_long_bracket_le hb
    have h2 := scan_comment_loop_le level (rest.drop (level + 2))
    simp only [List.length_drop] at h2
    omega
  case _ => exact bump_until_eol_le rest

/-- `scan_string` never consumes more than the remaining input. -/
theorem scan_string_le (q : Char) : ∀ rest : List Char, scan_string q rest ≤ rest.length := by
  intro rest
  induction rest using scan_string.induct q with
  | case1 => simp [scan_string]
  | case2 h => simp [scan_string]
  | case3 c2 t2 h ih =>
    have h2 := ih
    simp only [scan_string, h, if_true, List.length_cons]
    simp only [List.length_cons] at h2 ⊢
    omega
  | case4 c2 t2 h ih =>
    have h2 := ih
    simp only [List.length_cons] at h2
    simp [scan_string, h]
    omega
  | case5 c2 t2 h =>
    simp [scan_string, h]
  | case6 c c2 t2 h1 h2 ih =>
    simp only [scan_string, if_neg h1, if_neg h2, List.length_cons] at ih ⊢
    omega

/-- Non-empty lists seen through `head?` have positive length. -/
theorem length_pos_of_head? {l : List Char} {a : Char} (h : l.head? = some a) :
    1 ≤ l.length := by
  cases l with
  | nil => cases h
  | cons x t => simp

/-- The number scanner's fraction part never overshoots. -/
theorem scan_number_frac_le (l : List Char) : scan_number_frac l ≤ l.length := by
  rw [scan_number_frac]
  split
  case isTrue h =>
    have h1 := length_pos_of_head? h
    have h2 := takeWhile_len_le is_dec_digit (l.drop 1)
    simp only [List.length_drop] at h2
    omega
  case isFalse => omega

/-- The number scanner's exponent part never overshoots. -/
theorem scan_number_exp_le (l : List Char) : scan_number_exp l ≤ l.length := by
  rw [scan_number_exp]
  split
  case isTrue h =>
    have h1 : 1 ≤ l.length := by
      rcases h with h | h <;> exact length_pos_of_head? h
    split
    case isTrue h2 =>
      have h3 := length_pos_of_head? h2
      have h4 := takeWhile_len_le is_dec_digit (l.drop 2)
      simp only [List.length_drop] at h3 h4
      omega
    case isFalse =>
      have h4 := takeWhile_len_le is_dec_digit (l.drop 1)
      simp only [List.length_drop] at h4
      omega
  case isFalse => omega

/-- The number scanner's tail never overshoots. -/
theorem scan_number_tail_le (l : List Char) : scan_number_tail l ≤ l.length := by
  rw [scan_number_tail]
  have h1 := scan_number_frac_le l
  have h2 := scan_number_exp_le (l.drop (scan_number_frac l))
  simp only [List.length_drop] at h2
  omega

/-- `scan_number` never consumes more than the remaining input. -/
theorem scan_number_le (c : Char) (rest : List Char) : scan_number c rest ≤ rest.length := by
  rw [scan_number]
  split
  case isTrue h =>
    have hne : rest ≠ [] := by
      rcases h.2 with h2 | h2 <;> intro hnil <;> rw [hnil] at h2 <;> cases h2
    have h1 := takeWhile_len_le is_hex_digit (rest.drop 1)
    simp only [List.length_drop] at h1
    have h2 : 1 ≤ rest.length := by
      cases rest with
      | nil => exact absurd rfl hne
      | cons a t => simp
    omega
  case isFalse =>
    have h1 := takeWhile_len_le is_dec_digit rest
    have h2 := scan_number_tail_le (rest.drop (rest.takeWhile is_dec_digit).length)
    simp only [List.length_drop] at h2
    omega

/-- The dispatch tail of `next_token_inner` never consumes more than the
remaining input. -/
theorem next_token_rest_le (c : Char) (rest : List Char) :
    (next_token_rest c rest).2 ≤ rest.length := by
  rw [next_token_rest]
  split
  · rw [scan_identifier_or_keyword]
    split <;> exact takeWhile_len_le is_ident_continue rest
  · split
    · exact scan_number_le c rest
    · split
      · simp
      · split
        case isTrue h =>
          have : rest ≠ [] := by
            intro hnil
            rw [hnil] at h
            cases h.2
          cases rest with
          | nil => exact absurd rfl this
          | cons a t => simp
        case isFalse =>
          split
          · exact scan_string_le c rest
          · simp

/-- `next_token_inner` never consumes more than the remaining input. -/
theorem next_token_inner_le {c : Char} {rest : List Char} {p : SyntaxKind × Nat}
    (h : next_token_inner c rest = some p) : p.2 ≤ rest.length := by
  rw [next_token_inner] at h
  split at h
  · cases Option.some.inj h
    exact takeWhile_len_le is_whitespace rest
  · split at h
    case isTrue hc =>
      cases Option.some.inj h
      have h1 := scan_comment_le (rest.drop 1)
      have h3 : 1 ≤ rest.length := length_pos_of_head? hc.2
      simp only [List.length_drop] at h1
      simp only []
      omega
    case isFalse =>
      split at h
      · split at h
        case _ level hm =>
          obtain ⟨m, hm2, hmk⟩ := Option.map_eq_some'.mp h
          cases hmk
          have h1 := scan_long_string_fuel_le level _ _ _ hm2
          have h2 := match_long_bracket_tail_lt hm
          simp only [List.length_drop] at h1
          simp only []
          omega
        case _ =>
          cases Option.some.inj h
          exact next_token_rest_le c rest
      · cases Option.some.inj h
        exact next_token_rest_le c rest

/-- Every token returned by `next_token` covers at least one character. -/
theorem next_token_len_pos {text : List Char} {tok : Token}
    (h : next_token text = some tok) : 1 ≤ tok.len := by
  cases text with
  | nil => cases h
  | cons c rest =>
    rw [next_token] at h
    obtain ⟨p, -, hp⟩ := Option.map_eq_some'.mp h
    cases hp
    simp

/-- Every token returned by `next_token` fits in the input. -/
theorem next_token_len_le {text : List Char} {tok : Token}
    (h : next_token text = some tok) : tok.len ≤ text.length := by
  cases text with
  | nil => cases h
  | cons c rest =>
    rw [next_token] at h
    obtain ⟨p, hp1, hp2⟩ := Option.map_eq_some'.mp h
    cases hp2
    have := next_token_inner_le hp1
    simp only [List.length_cons]
    omega

/-- Whenever the `tokenize` loop terminates, the returned tokens cover the
input exactly: concatenating the covered substrings reproduces the input and
the lengths sum to the input's length. -/
theorem tokenize_fuel_covered :
    ∀ (fuel : Nat) (text : List Char) (toks : List Token),
      tokenize_fuel fuel text = some toks →
      coveredConcat text toks = text ∧ (toks.map Token.len).sum = text.length := by
  intro fuel
  induction fuel with
  | zero => intro text toks h; simp [tokenize_fuel] at h
  | succ n ih =>
    intro text toks h
    cases text with
    | nil =>
      cases Option.some.inj h
      exact ⟨rfl, rfl⟩
    | cons c rest =>
      simp only [tokenize_fuel] at h
      cases hnt : next_token (c :: rest) with
      | none => rw [hnt] at h; cases h
      | some tok =>
        rw [hnt] at h
        simp only at h
        split at h
        · cases h
        · obtain ⟨toks', ht', rfl⟩ := Option.map_eq_some'.mp h
          obtain ⟨ih1, ih2⟩ := ih _ _ ht'
          have hle := next_token_len_le hnt
          constructor
          · rw [coveredConcat, ih1]
            exact List.take_append_drop _ _
          · simp only [List.map_cons, List.sum_cons, ih2, List.length_drop]
            omega

/-- The cursor-style short-string scanner computes exactly the length the
claim describes, for any genuine quote character (the Rust call sites pass
only double or single quotes, so the quote is never a backslash). -/
theorem scan_string_eq_spec (q : Char) (hq : q ≠ '\\') :
    ∀ rest : List Char, scan_string q rest = shortStringSpec q rest := by
  intro rest
  induction rest using scan_string.induct q with
  | case1 => rfl
  | case2 h => rfl
  | case3 c2 t2 h ih =>
    have hne : ('\\' : Char) ≠ q := fun hh => hq hh.symm
    simp [scan_string, shortStringSpec, h, hne, ih]
  | case4 c2 t2 h ih =>
    have hne : ('\\' : Char) ≠ q := fun hh => hq hh.symm
    simp [scan_string, shortStringSpec, h, hne, ih]
  | case5 c2 t2 h =>
    simp [scan_string, shortStringSpec, h]
  | case6 c c2 t2 h1 h2 ih =>
    simp [scan_string, shortStringSpec, h1, h2, ih]

/-- With no quote character in the remaining input, the short-string scanner
absorbs everything to end of input. -/
theorem scan_string_no_quote (q : Char) :
    ∀ rest : List Char, q ∉ rest → scan_string q rest = rest.length := by
  intro rest
  induction rest using scan_string.induct q with
  | case1 => intro _; rfl
  | case2 h => intro _; rfl
  | case3 c2 t2 h ih =>
    intro hm
    have hc2 : c2 = '\\' := by
      cases h with
      | inl h => exact h
      | inr h =>
        subst h
        exact absurd (List.mem_cons_of_mem _ (List.mem_cons_self _ _)) hm
    have ht2 : q ∉ t2 := fun hx =>
      hm (List.mem_cons_of_mem _ (List.mem_cons_of_mem _ hx))
    simp [scan_string, h, ih ht2]
    omega
  | case4 c2 t2 h ih =>
    intro hm
    have ht : q ∉ c2 :: t2 := fun hx => hm (List.mem_cons_of_mem _ hx)
    simp [scan_string, h, ih ht]
    omega
  | case5 c2 t2 h =>
    intro hm
    exact absurd (List.mem_cons_self _ _) hm
  | case6 c c2 t2 h1 h2 ih =>
    intro hm
    have ht : q ∉ c2 :: t2 := fun hx => hm (List.mem_cons_of_mem _ hx)
    simp [scan_string, h1, h2, ih ht]
    omega

/-- The accumulator loop of `SyntaxText::find` computes the first-occurrence
index inside the concatenation of the chunks, shifted by the accumulator. -/
theorem findInChunks_eq (c : Char) :
    ∀ (l : List (List Char)) (acc : Nat),
      findInChunks c acc l = (l.flatten.findIdx? (fun x => x = c)).map (acc + ·) := by
  intro l
  induction l with
  | nil => intro acc; rfl
  | cons chunk rest ih =>
    intro acc
    rw [findInChunks]
    cases hc : chunk.findIdx? (fun x => x = c) with
    | some pos =>
      simp [List.flatten_cons, List.findIdx?_append, hc]
    | none =>
      simp only [List.flatten_cons, List.findIdx?_append, hc, Option.none_or, ih]
      cases hx : rest.flatten.findIdx? (fun x => x = c) with
      | none => rfl
      | some i =>
        simp only [Option.map_some', Option.map_map, Function.comp_apply]
        congr 1
        omega

/-- Recording diagnostics through the builder appends them, in order, to the
accumulated error list. -/
theorem applyErrors_errors :
    ∀ (es : List (ParseError × Nat)) (b : SyntaxTreeBuilder),
      (b.applyErrors es).errors =
        b.errors ++ es.map (fun p => ⟨.parseError p.1, .offset p.2⟩) := by
  intro es
  induction es with
  | nil => intro b; simp [SyntaxTreeBuilder.applyErrors]
  | cons p rest ih =>
    intro b
    cases p with
    | mk e pos =>
      simp [SyntaxTreeBuilder.applyErrors, SyntaxTreeBuilder.error, ih]

/-- The side payload attached by `finish` round-trips through `root_data`:
diagnostics recorded in the builder are really stored on the root. -/
theorem finish_root_data (b : SyntaxTreeBuilder) :
    (b.finish).root_data = b.errors := by
  rw [SyntaxTreeBuilder.finish, SyntaxNodeRoot.root_data]
  split
  case isTrue h => simp [h]
  case isFalse h => rfl

/-! ### Claim theorems -/

/-- Claim C1 (code bug).  Whenever `tokenize` returns a token list,
concatenating the covered substrings in order with their recorded lengths
reproduces the input exactly and the lengths partition it; but the claim's
universal quantification over every input fails: on `[[` the Rust `tokenize`
never returns, because the long-string loop at end of input calls `bump`,
ignores its `None`, and probes again forever — `none` for every fuel. -/
theorem c1_tokenize_losslessness :
    (∀ (text : List Char) (toks : List Token), tokenize text = some toks →
      coveredConcat text toks = text ∧ (toks.map Token.len).sum = text.length) ∧
    tokenize (toChars "[[") = none ∧
    (∀ fuel level : Nat, scan_long_string_fuel level fuel [] = none) := by
  refine ⟨fun text toks h => tokenize_fuel_covered _ _ _ h, by decide, ?_⟩
  intro fuel level
  exact scan_long_string_fuel_no_closer level fuel [] (by simp)

/-- Witness for C1 at a concrete input. -/
theorem c1_witness :
    tokenize (toChars "- - 1") =
      some [⟨MINUS, 1⟩, ⟨WHITESPACE, 1⟩, ⟨MINUS, 1⟩, ⟨WHITESPACE, 1⟩, ⟨NUMBER, 1⟩] ∧
    coveredConcat (toChars "- - 1")
        [⟨MINUS, 1⟩, ⟨WHITESPACE, 1⟩, ⟨MINUS, 1⟩, ⟨WHITESPACE, 1⟩, ⟨NUMBER, 1⟩] =
      toChars "- - 1" :=
  ⟨by decide, (c1_tokenize_losslessness.1 (toChars "- - 1")
    [⟨MINUS, 1⟩, ⟨WHITESPACE, 1⟩, ⟨MINUS, 1⟩, ⟨WHITESPACE, 1⟩, ⟨NUMBER, 1⟩] (by decide)).1⟩

/-- Claim C2 (code bug).  Every token `next_token` returns covers at least
one character, and an unrecognized character (here `@`, which no table maps)
yields a length-1 ERROR token; but "returns exactly one token" fails on the
input `[[`: `next_token` never returns, the long-string loop diverging at end
of input (see C1's fuel-independent divergence). -/
theorem c2_next_token_progress :
    (∀ (text : List Char) (tok : Token), next_token text = some tok → 1 ≤ tok.len) ∧
    next_token (toChars "@") = some ⟨ERROR, 1⟩ ∧
    next_token (toChars "~") = some ⟨ERROR, 1⟩ ∧
    next_token (toChars "[[") = none :=
  ⟨fun _ _ h => next_token_len_pos h, by decide, by decide, by decide⟩

/-- Witness for C2 at a concrete input. -/
theorem c2_witness :
    next_token (toChars "x") = some ⟨IDENT, 1⟩ ∧ 1 ≤ (Token.mk IDENT 1).len :=
  ⟨by decide, c2_next_token_progress.1 (toChars "x") ⟨IDENT, 1⟩ (by decide)⟩

/-- Claim C3 (code bug).  On the spec's own example the STRING token stops at
the first closer of the wrong level: `scan_long_string` receives the level
but never uses it, so `[==[ foo ]=] still-open ]==]` produces a STRING token
of length 12 (up to and including `]=]`) instead of one spanning all 28
characters to the final `]==]`. -/
theorem c3_long_string_wrong_level_closer :
    next_token (toChars "[==[ foo ]=] still-open ]==]") = some ⟨STRING, 12⟩ ∧
    (toChars "[==[ foo ]=] still-open ]==]").take 12 = toChars "[==[ foo ]=]" ∧
    (toChars "[==[ foo ]=] still-open ]==]").length = 28 ∧
    ¬ next_token (toChars "[==[ foo ]=] still-open ]==]") = some ⟨STRING, 28⟩ :=
  ⟨by decide, by decide, by decide, by decide⟩

/-- Claim C4 (code bug).  On an unterminated long string the Rust `tokenize`
does not terminate with a STRING token spanning to end of input: after the
opener is consumed the remaining text ` unterminated` contains no closing
bracket character, and the long-string loop then returns for no amount of
fuel — the Rust loop never exits. -/
theorem c4_unterminated_long_string_diverges :
    tokenize (toChars "[[ unterminated") = none ∧
    (∀ fuel level : Nat,
      scan_long_string_fuel level fuel (toChars " unterminated") = none) := by
  constructor
  · decide
  · intro fuel level
    exact scan_long_string_fuel_no_closer level fuel _ (by decide)

/-- Counterexample to claim C5.  In `--[[x]=]]y]]z` the first level-0 closer
`]]` in the comment body `x]=]]y]]z` ends at body offset 5, so the claim
predicts a COMMENT token of length 2 + 2 + 5 = 9; the code instead consumes
the wrong-level closer `]=]` wholesale plus one more character, skipping that
closer, and produces a COMMENT token of length 12. -/
theorem c5_counterexample :
    next_token (toChars "--[[x]=]]y]]z") = some ⟨COMMENT, 12⟩ ∧
    firstCloserEnd 0 (toChars "x]=]]y]]z") = some 5 ∧
    ¬ next_token (toChars "--[[x]=]]y]]z") = some ⟨COMMENT, 9⟩ :=
  ⟨by decide, by decide, by decide⟩

/-- Claim C5 as amended.  The block-comment loop consumes one character per
probe that matches nothing, but a probe matching a different-level closer
consumes that closer wholesale and then one further character, which can skip
a same-level closer; the token ends immediately after the first same-level
closer the probe sequence reaches (in particular one sitting right at the
cursor), or at end of input when no closer is reached — the loop never
overruns the input, and with no closing bracket character at all it absorbs
exactly to end of input. -/
theorem c5_amended_block_comment :
    ∀ (level : Nat) (rest : List Char),
      scan_comment_loop level rest ≤ rest.length ∧
      (']' ∉ rest → scan_comment_loop level rest = rest.length) ∧
      (scan_long_bracket ']' rest = some level →
        scan_comment_loop level rest = level + 2) :=
  fun level rest =>
    ⟨scan_comment_loop_le level rest,
     fun h => scan_comment_loop_no_closer level rest h,
     fun hb => scan_comment_loop_immediate hb⟩

/-- Witness for the amended C5 at concrete inputs. -/
theorem c5_amended_witness :
    (']' ∉ toChars "no closer here") ∧
    scan_comment_loop 0 (toChars "no closer here") = (toChars "no closer here").length ∧
    scan_long_bracket ']' (toChars "]]tail") = some 0 ∧
    scan_comment_loop 0 (toChars "]]tail") = 0 + 2 :=
  ⟨by decide, (c5_amended_block_comment 0 (toChars "no closer here")).2.1 (by decide),
   by decide, (c5_amended_block_comment 0 (toChars "]]tail")).2.2 (by decide)⟩

/-- Claim C6 (confirmed).  For a genuine quote character the short-string
scanner computes exactly the length described by the claim (first matching
unescaped quote consumed, backslash-backslash and backslash-quote as
two-character units, any other escaped character left for the next
iteration), never overruns the input, and with no quote at all absorbs to end
of input.  The claim's examples: `scan_string` on `a\"b"` consumes all 5
characters (the escaped quote does not terminate), and on `a\\"` consumes
all 4 (the quote after the escaped backslash terminates). -/
theorem c6_short_string_scanner :
    (∀ (q : Char) (rest : List Char), q ≠ '\\' →
      scan_string q rest = shortStringSpec q rest ∧
      scan_string q rest ≤ rest.length ∧
      (q ∉ rest → scan_string q rest = rest.length)) ∧
    scan_string '"' (toChars "a\\\"b\"") = 5 ∧
    scan_string '"' (toChars "a\\\\\"") = 4 :=
  ⟨fun q rest hq =>
    ⟨scan_string_eq_spec q hq rest, scan_string_le q rest, scan_string_no_quote q rest⟩,
   by decide, by decide⟩

/-- Witness for C6 at a concrete input. -/
theorem c6_witness :
    (('"' : Char) ≠ '\\') ∧
    scan_string '"' (toChars "a\\\"b\" tail") = shortStringSpec '"' (toChars "a\\\"b\" tail") :=
  ⟨by decide, (c6_short_string_scanner.1 '"' (toChars "a\\\"b\" tail") (by decide)).1⟩

/-- Claim C7 (confirmed).  `Location::add_offset` is pure arithmetic: an
offset N with deltas D and E becomes N + D − E (exactly, whenever E ≤ N + D),
and the range variant shifts both endpoints by the same amount, preserving
the range's length. -/
theorem c7_location_add_offset :
    ∀ N D E : Nat, E ≤ N + D →
      ((Location.offset N).add_offset D E = Location.offset (N + D - E) ∧
        N + D - E + E = N + D) ∧
      (∀ L : Nat, (Location.range ⟨N, L⟩).add_offset D E =
          Location.range ⟨N + D - E, L + D - E⟩ ∧
        (N ≤ L → L + D - E - (N + D - E) = L - N)) := by
  intro N D E h
  exact ⟨⟨rfl, by omega⟩, fun L => ⟨rfl, fun hNL => by omega⟩⟩

/-- Witness for C7 at concrete numbers. -/
theorem c7_witness :
    (2 ≤ 5 + 3) ∧ (Location.offset 5).add_offset 3 2 = Location.offset 6 ∧
    (Location.range ⟨5, 9⟩).add_offset 3 2 = Location.range ⟨6, 10⟩ :=
  ⟨by decide, (c7_location_add_offset 5 3 2 (by decide)).1.1,
   ((c7_location_add_offset 5 3 2 (by decide)).2 9).1⟩

/-- Counterexample to claim C8.  A request `1..5` against a text of range
`0..2` lies outside the text's own range, yet `slice` does not panic: the
absolute-range restriction is plain intersection, which silently clamps the
request to `1..2`. -/
theorem c8_counterexample :
    (SyntaxText.sliceRange ⟨GreenElem.token IDENT (toChars "ab"), 0, ⟨0, 2⟩⟩ ⟨1, 5⟩).map
        SyntaxText.range = some ⟨1, 2⟩ ∧
    TextRange.containsRange ⟨0, 2⟩ ⟨1, 5⟩ = false := by
  exact ⟨rfl, by decide⟩

/-- Claim C8 as amended.  The open-ended slice forms panic exactly when the
given endpoint lies outside the text's range (inclusively); the
absolute-range form panics only when the requested range is strictly
disjoint from the text's range and otherwise silently clamps to the
intersection; a request lying within the range yields exactly the requested
sub-range. -/
theorem c8_amended_slice_restrict :
    (∀ req own : TextRange,
      (restrictRange req own = none ↔ min req.stop own.stop < max req.start own.start) ∧
      (own.containsRange req = true → req.start ≤ req.stop →
        restrictRange req own = some req)) ∧
    (∀ (own : TextRange) (u : Nat),
      (restrictRangeTo u own = none ↔ ¬(own.start ≤ u ∧ u ≤ own.stop)) ∧
      (restrictRangeFrom u own = none ↔ ¬(own.start ≤ u ∧ u ≤ own.stop))) := by
  constructor
  · intro req own
    constructor
    · rw [restrictRange, TextRange.intersection]
      split
      case isTrue h =>
        constructor
        · intro hx; cases hx
        · intro hx; omega
      case isFalse h =>
        constructor
        · intro _; omega
        · intro _; rfl
    · intro h1 h2
      rw [restrictRange, TextRange.intersection]
      simp only [TextRange.containsRange, Bool.and_eq_true, decide_eq_true_eq] at h1
      have hmax : max req.start own.start = req.start := by omega
      have hmin : min req.stop own.stop = req.stop := by omega
      rw [hmax, hmin, if_pos (by omega)]
  · intro own u
    constructor
    · rw [restrictRangeTo, TextRange.contains_inclusive]
      split
      case isTrue h =>
        simp only [Bool.and_eq_true, decide_eq_true_eq] at h
        constructor
        · intro hx; cases hx
        · intro hx; exact absurd h hx
      case isFalse h =>
        simp only [Bool.and_eq_true, decide_eq_true_eq] at h
        constructor
        · intro _; exact h
        · intro _; rfl
    · rw [restrictRangeFrom, TextRange.contains_inclusive]
      split
      case isTrue h =>
        simp only [Bool.and_eq_true, decide_eq_true_eq] at h
        constructor
        · intro hx; cases hx
        · intro hx; exact absurd h hx
      case isFalse h =>
        simp only [Bool.and_eq_true, decide_eq_true_eq] at h
        constructor
        · intro _; exact h
        · intro _; rfl

/-- Witness for the amended C8 at concrete ranges. -/
theorem c8_amended_witness :
    TextRange.containsRange ⟨0, 5⟩ ⟨1, 3⟩ = true ∧ (1 : Nat) ≤ 3 ∧
    restrictRange ⟨1, 3⟩ ⟨0, 5⟩ = some ⟨1, 3⟩ :=
  ⟨by decide, by decide,
   (c8_amended_slice_restrict.1 ⟨1, 3⟩ ⟨0, 5⟩).2 (by decide) (by decide)⟩

/-- Counterexample to claim C9.  For a text over a node that starts at
document offset 2 (document `xyab`, node covering `ab`), the first `a` sits
at absolute offset 2, but `find` returns 0: the accumulator starts at zero,
so the result is relative to the text's own range start, not absolute. -/
theorem c9_counterexample :
    SyntaxText.find
        ⟨GreenElem.node CHUNK [GreenElem.token IDENT (toChars "ab")], 2, ⟨2, 4⟩⟩ 'a' =
      some 0 ∧
    findAbsoluteSpec
        ⟨GreenElem.node CHUNK [GreenElem.token IDENT (toChars "ab")], 2, ⟨2, 4⟩⟩ 'a' =
      some 2 ∧
    ¬ SyntaxText.find
        ⟨GreenElem.node CHUNK [GreenElem.token IDENT (toChars "ab")], 2, ⟨2, 4⟩⟩ 'a' =
      some 2 :=
  ⟨by decide, by decide, by decide⟩

/-- Claim C9 as amended.  `SyntaxText::find` returns the index of the first
occurrence of the character in the text's own reconstructed string — an
offset relative to the start of the text's range, not an absolute offset
into the whole document — and `none` exactly when the character does not
occur in the text. -/
theorem c9_find_first_occurrence :
    ∀ (st : SyntaxText) (c : Char),
      st.find c = st.chunks.flatten.findIdx? (fun x => x = c) ∧
      (st.find c = none ↔ c ∉ st.chunks.flatten) := by
  intro st c
  have h1 : st.find c = st.chunks.flatten.findIdx? (fun x => x = c) := by
    rw [SyntaxText.find, findInChunks_eq c st.chunks 0]
    cases hx : st.chunks.flatten.findIdx? (fun x => x = c) with
    | none => rfl
    | some i => simp
  refine ⟨h1, ?_⟩
  rw [h1, List.findIdx?_eq_none_iff]
  constructor
  · intro hall hm
    simpa using hall c hm
  · intro hnm x hx
    simp only [decide_eq_false_iff_not]
    intro hxc
    exact hnm (hxc ▸ hx)

/-- Claim C10 (confirmed).  Whatever diagnostics are recorded through
`SyntaxTreeBuilder::error`, they are attached to the frozen root by
`finish` — `root_data` returns them all — yet `Chunk::errors` returns the
empty list for every tree, so builder diagnostics are not retrievable
through that public accessor. -/
theorem c10_chunk_errors_always_empty :
    ∀ (b : SyntaxTreeBuilder) (es : List (ParseError × Nat)),
      Chunk.errors ((b.applyErrors es).finish) = [] ∧
      ((b.applyErrors es).finish).root_data =
        b.errors ++ es.map (fun p => ⟨.parseError p.1, .offset p.2⟩) := by
  intro b es
  exact ⟨rfl, by rw [finish_root_data, applyErrors_errors]⟩

end LuaParser
